import Mathlib

/-!
# Verification of the gradescope regrade-analytics pipeline

Shallow embedding of the outcome-inference and aggregation pipeline of the
`gradescope-regrade-analytics` repository (files `analyze.py`,
`utils/parse.py`, `utils/cache.py`, `utils/types.py`), together with proofs
of the specified properties.

Modelling conventions:
* Python `float` values (timestamps, scores, weights) are modelled as `ℚ`;
  the pipeline only compares and copies them, never does float arithmetic.
* Python `dict`s (which preserve insertion order and have unique keys) are
  modelled as association lists `List (String × α)`; key uniqueness is an
  explicit hypothesis where it matters.
* Code that can raise an exception is modelled in `Except String`.
-/

namespace Regrade

/-- The `user` field of a regrade request message
(`Literal["student"] | Literal["staff"]` in `utils/types.py`). -/
inductive Sender where
  | student
  | staff
deriving DecidableEq, Repr

/-- Type `RegradeRequest` from `utils/types.py`: one turn of a regrade conversation.
The `accepted` field is `NotRequired` in Python; `none` models its absence. -/
structure RegradeRequest where
  user : Sender
  text : String
  timestamp : ℚ
  accepted : Option Bool := none
deriving DecidableEq, Repr

/-- Type `ReviewData` from `utils/types.py`: the full thread of one review link. -/
structure ReviewData where
  link : String
  reviews : List RegradeRequest
  score : ℚ
  weight : ℚ
  accepted : Option Bool
deriving DecidableEq, Repr

/-- Type `LinkMap = dict[str, ReviewData]`, as an insertion-ordered association list. -/
abbrev LinkMap := List (String × ReviewData)

/-- Type `RegradeInfoMetadata` from `utils/types.py`. -/
structure RegradeInfoMetadata where
  question : String
  grader : String
  question_link : String
  review_link : String
deriving DecidableEq, Repr

/-- Type `RegradeInfo` from `utils/types.py`. -/
structure RegradeInfo where
  num_comments : Nat
  regrades : List RegradeInfoMetadata
  num_accepted : Nat
  num_responded : Nat
deriving DecidableEq, Repr

/-- Type `RegradeInfoDict = dict[str, RegradeInfo]`. -/
abbrev RegradeInfoDict := List (String × RegradeInfo)

/-- Python `dict` lookup `d[k]` / `d.get(k)` on an association list:
first entry whose key matches. -/
def alookup {α : Type} : List (String × α) → String → Option α
  | [], _ => none
  | (k, v) :: rest, key => if k = key then some v else alookup rest key

/-- Python `dict` value update `d[k] = v` for a key already present:
replaces the stored value, keeps the position. -/
def dictSet {α : Type} (m : List (String × α)) (k : String) (v : α) :
    List (String × α) :=
  m.map fun p => if p.1 = k then (k, v) else p

/-! ## Outcome classifier (`analyze.py`, `classify_responses`) -/

/-- One ranked result of the external zero-shot classifier: parallel `labels`
and `scores` lists, sorted by descending confidence (external contract). -/
structure ClsResult where
  labels : List String
  scores : List ℚ
deriving DecidableEq, Repr

/-- The external classifier as a black box: a batch of strings to one ranked
result per input (`CLASSIFIER(responses, labels, hypothesis_template=...)`). -/
abbrev Classifier := List String → List ClsResult

/-- The per-result decision in `classify_responses` (`analyze.py` lines
161-170): accepted only if the top-ranked label is `"accepted"` with
confidence at least `0.6` (the rational `mkRat 6 10`).  Python indexes
`labels[0]`/`scores[0]`, which the classifier contract guarantees to exist;
the empty case is unreachable. -/
def classifyOne (result : ClsResult) : Bool :=
  match result.labels, result.scores with
  | l0 :: _, s0 :: _ => l0 == "accepted" && decide (mkRat 6 10 ≤ s0)
  | _, _ => false

/-- Function `classify_responses` (`analyze.py` lines 146-172), with the classifier
handle passed explicitly instead of the global `CLASSIFIER`. -/
def classify_responses (cls : Classifier) (responses : List String) : List Bool :=
  (cls responses).map classifyOne

/-! ## Batch construction (`modify_with_classifications`, first loop) -/

/-- Python `str.strip()`: remove leading and trailing whitespace.  Implemented
over the character list so that concrete instances reduce in the kernel. -/
def pyStrip (s : String) : String :=
  ⟨((s.data.dropWhile Char.isWhitespace).reverse.dropWhile Char.isWhitespace).reverse⟩

/-- Inner loop `for idx, info in enumerate(conversation)` of
`modify_with_classifications`: collect `(link, idx, text.strip())` for every
staff message, indexing from `idx`. -/
def staffEntries (link : String) : List RegradeRequest → Nat → List (String × Nat × String)
  | [], _ => []
  | r :: rest, idx =>
      (if r.user = Sender.staff then [(link, idx, pyStrip r.text)] else [])
        ++ staffEntries link rest (idx + 1)

/-- The `data_to_classify` list of `modify_with_classifications`
(`analyze.py` lines 181-187). -/
def dataToClassify : LinkMap → List (String × Nat × String)
  | [] => []
  | (link, rd) :: rest => staffEntries link rd.reviews 0 ++ dataToClassify rest

/-- The `text_only` substitution (`analyze.py` line 190): Python
`data[2] or "accepted"` replaces an empty (stripped) string. -/
def textOnly (data : List (String × Nat × String)) : List String :=
  data.map fun d => if d.2.2 = "" then "accepted" else d.2.2

/-! ## Deterministic override and write-back (second loop) -/

/-- The score/weight override on a tentative classifier result
(`analyze.py` lines 205-214). -/
def applyOverride (score weight : ℚ) (result : Bool) : Bool :=
  if weight > 0 ∧ score ≥ weight then true
  else if weight > 0 ∧ score ≤ 0 then false
  else result

/-- Assignment `review_data["reviews"][idx]["accepted"] = result`: set the `accepted`
field of the message at position `idx`. -/
def setAcceptedAt : List RegradeRequest → Nat → Bool → List RegradeRequest
  | [], _, _ => []
  | r :: rest, 0, b => { r with accepted := some b } :: rest
  | r :: rest, n + 1, b => r :: setAcceptedAt rest n b

/-- One iteration of the write-back loop (`analyze.py` lines 199-216):
look up the owning record, apply the override using that record's current
score/weight, and store the result on the message. -/
def modifyStep (m : LinkMap) (e : (String × Nat × String) × Bool) : LinkMap :=
  match alookup m e.1.1 with
  | none => m
  | some rd =>
      dictSet m e.1.1
        { rd with
          reviews := setAcceptedAt rd.reviews e.1.2.1 (applyOverride rd.score rd.weight e.2) }

/-- The classification-and-override phase of `modify_with_classifications`
(`analyze.py` lines 181-216). -/
def classifyPhase (cls : Classifier) (m : LinkMap) : LinkMap :=
  let data := dataToClassify m
  let results := classify_responses cls (textOnly data)
  (data.zip results).foldl modifyStep m

/-! ## Outcome propagation (third loop of `modify_with_classifications`) -/

/-- One iteration of the `for review in review_data["reviews"]` scan
(`analyze.py` lines 222-229): remember the timestamp and label of the staff
message with the strictly largest timestamp seen so far. -/
def lastStep (acc : Option ℚ × Bool) (review : RegradeRequest) : Option ℚ × Bool :=
  if review.user = Sender.staff then
    match acc.1 with
    | none => (some review.timestamp, review.accepted.getD false)
    | some t =>
        if t < review.timestamp then (some review.timestamp, review.accepted.getD false)
        else acc
  else acc

/-- The `last_response_time` / `last_response_accepted` scan over one record's
messages, started from `(None, False)`. -/
def lastStaffFold (reviews : List RegradeRequest) : Option ℚ × Bool :=
  reviews.foldl lastStep (none, false)

/-- Record-level outcome assignment (`analyze.py` lines 219-236). -/
def propagate (rd : ReviewData) : ReviewData :=
  match lastStaffFold rd.reviews with
  | (some _, b) => { rd with accepted := some b }
  | (none, _) => { rd with accepted := none }

/-- Function `modify_with_classifications` (`analyze.py` lines 175-236), as a pure
function of the link map and classifier handle. -/
def modify_with_classifications (cls : Classifier) (m : LinkMap) : LinkMap :=
  (classifyPhase cls m).map fun p => (p.1, propagate p.2)

/-! ## Specification-side description of propagation

`chronoLastStaff` names, directly from the spec's words, "the chronologically
last staff message, ties broken by keeping the earliest-seen among equal
maximum timestamps": the first staff message whose timestamp attains the
maximum staff timestamp.  It is compared against the source-derived fold. -/

/-- Maximum of a list of timestamps, `none` on the empty list. -/
def maxTimestamp : List ℚ → Option ℚ
  | [] => none
  | t :: ts => some ((maxTimestamp ts).elim t fun u => max t u)

/-- The chronologically last staff message of a conversation: the first staff
message attaining the maximum staff timestamp (earliest-seen tie-break). -/
def chronoLastStaff (reviews : List RegradeRequest) : Option RegradeRequest :=
  match maxTimestamp ((reviews.filter fun r => r.user = Sender.staff).map (·.timestamp)) with
  | none => none
  | some t => (reviews.filter fun r => r.user = Sender.staff).find? fun r => r.timestamp = t

/-- The timestamp and label of the chronologically last staff message. -/
def bestStaff (reviews : List RegradeRequest) : Option (ℚ × Bool) :=
  (chronoLastStaff reviews).map fun msg => (msg.timestamp, msg.accepted.getD false)

/-- Merge an accumulated (timestamp, label) candidate with a later candidate,
preferring the earlier one on ties. -/
def pick (t0 : ℚ) (b0 : Bool) : Option (ℚ × Bool) → ℚ × Bool
  | none => (t0, b0)
  | some (t, b) => if t0 < t then (t, b) else (t0, b0)

theorem maxTimestamp_eq_none {ts : List ℚ} : maxTimestamp ts = none ↔ ts = [] := by
  cases ts <;> simp [maxTimestamp]

theorem maxTimestamp_mem {ts : List ℚ} {t : ℚ} (h : maxTimestamp ts = some t) :
    t ∈ ts := by
  induction ts with
  | nil => simp [maxTimestamp] at h
  | cons a rest ih =>
    cases hrest : maxTimestamp rest with
    | none =>
      simp [maxTimestamp, hrest] at h
      simp [← h]
    | some u =>
      simp [maxTimestamp, hrest] at h
      rcases max_choice a u with hm | hm <;> rw [hm] at h
      · simp [← h]
      · subst h
        exact List.mem_cons_of_mem a (ih hrest)

theorem find?_eq_some_of_mem {α : Type} {p : α → Bool} {l : List α} {x : α}
    (hx : x ∈ l) (hpx : p x = true) : ∃ y, l.find? p = some y ∧ p y = true := by
  induction l with
  | nil => cases hx
  | cons a rest ih =>
    by_cases ha : p a = true
    · exact ⟨a, List.find?_cons_of_pos rest ha, ha⟩
    · rcases List.mem_cons.mp hx with rfl | hx'
      · exact absurd hpx ha
      · obtain ⟨y, hy, hpy⟩ := ih hx'
        exact ⟨y, by rw [List.find?_cons_of_neg rest (by simp [ha]), hy], hpy⟩

theorem bestStaff_cons_nonstaff {r : RegradeRequest} {rest : List RegradeRequest}
    (h : ¬r.user = Sender.staff) : bestStaff (r :: rest) = bestStaff rest := by
  unfold bestStaff chronoLastStaff
  rw [List.filter_cons_of_neg (by simp [h])]

theorem bestStaff_cons_staff {r : RegradeRequest} {rest : List RegradeRequest}
    (h : r.user = Sender.staff) :
    bestStaff (r :: rest) =
      some (pick r.timestamp (r.accepted.getD false) (bestStaff rest)) := by
  unfold bestStaff chronoLastStaff
  rw [List.filter_cons_of_pos (by simp [h])]
  cases hS : maxTimestamp ((rest.filter fun x => x.user = Sender.staff).map (·.timestamp)) with
  | none =>
    have hnil : (rest.filter fun x => x.user = Sender.staff) = [] := by
      have := maxTimestamp_eq_none.mp hS
      exact List.map_eq_nil_iff.mp this
    simp only [hnil, List.map_cons, List.map_nil, maxTimestamp]
    simp [List.find?, pick]
  | some u =>
    obtain ⟨msg, hmem, ht⟩ := by
      have hu := maxTimestamp_mem hS
      exact List.mem_map.mp hu
    obtain ⟨msg0, hfind, hp⟩ :=
      find?_eq_some_of_mem (p := fun x : RegradeRequest => decide (x.timestamp = u)) hmem
        (by simp [ht])
    have hmsg0 : msg0.timestamp = u := by simpa using hp
    simp only [List.map_cons, maxTimestamp, hS, Option.elim_some]
    rcases lt_or_ge r.timestamp u with hlt | hge
    · rw [max_eq_right (le_of_lt hlt)]
      rw [List.find?_cons_of_neg _ (by simp [ne_of_lt hlt]), hfind]
      simp [pick, hmsg0, hlt]
    · rw [max_eq_left hge]
      rw [List.find?_cons_of_pos _ (by simp)]
      simp only [hfind, Option.map_some']
      simp [pick, hmsg0, not_lt.mpr hge]

theorem pick_assoc (t0 rt : ℚ) (b0 lab : Bool) (S : Option (ℚ × Bool)) :
    pick t0 b0 (some (pick rt lab S)) =
      pick (if t0 < rt then rt else t0) (if t0 < rt then lab else b0) S := by
  cases S with
  | none =>
    simp only [pick]
    split_ifs <;> simp_all
  | some tb =>
    obtain ⟨T, B⟩ := tb
    simp only [pick]
    split_ifs <;> first
      | rfl
      | (exfalso; try linarith)

theorem foldl_lastStep_some (reviews : List RegradeRequest) :
    ∀ t0 b0, reviews.foldl lastStep (some t0, b0) =
      (some (pick t0 b0 (bestStaff reviews)).1, (pick t0 b0 (bestStaff reviews)).2) := by
  induction reviews with
  | nil =>
    intro t0 b0
    simp [bestStaff, chronoLastStaff, maxTimestamp, pick]
  | cons r rest ih =>
    intro t0 b0
    by_cases h : r.user = Sender.staff
    · rw [bestStaff_cons_staff h]
      by_cases hlt : t0 < r.timestamp
      · have hstep : lastStep (some t0, b0) r =
            (some r.timestamp, r.accepted.getD false) := by
          simp [lastStep, h, hlt]
        rw [List.foldl_cons, hstep, ih, pick_assoc]
        simp [hlt]
      · have hstep : lastStep (some t0, b0) r = (some t0, b0) := by
          simp [lastStep, h, hlt]
        rw [List.foldl_cons, hstep, ih, pick_assoc]
        simp [hlt]
    · have hstep : lastStep (some t0, b0) r = (some t0, b0) := by
        simp [lastStep, h]
      rw [List.foldl_cons, hstep, ih, bestStaff_cons_nonstaff h]

theorem lastStaffFold_eq_bestStaff (reviews : List RegradeRequest) :
    lastStaffFold reviews =
      match bestStaff reviews with
      | none => (none, false)
      | some (t, b) => (some t, b) := by
  induction reviews with
  | nil => rfl
  | cons r rest ih =>
    by_cases h : r.user = Sender.staff
    · have hstep : lastStep (none, false) r =
          (some r.timestamp, r.accepted.getD false) := by
        simp [lastStep, h]
      unfold lastStaffFold
      rw [List.foldl_cons, hstep, foldl_lastStep_some, bestStaff_cons_staff h]
    · have hstep : lastStep (none, false) r = (none, false) := by
        simp [lastStep, h]
      unfold lastStaffFold at ih ⊢
      rw [List.foldl_cons, hstep, ih, bestStaff_cons_nonstaff h]

theorem propagate_accepted (rd : ReviewData) :
    (propagate rd).accepted =
      (chronoLastStaff rd.reviews).map fun msg => msg.accepted.getD false := by
  unfold propagate
  rw [lastStaffFold_eq_bestStaff]
  cases hb : bestStaff rd.reviews with
  | none =>
    have : chronoLastStaff rd.reviews = none := by
      by_contra hne
      rcases Option.ne_none_iff_exists'.mp hne with ⟨msg, hmsg⟩
      simp [bestStaff, hmsg] at hb
    simp [this]
  | some tb =>
    obtain ⟨t, b⟩ := tb
    rcases Option.map_eq_some'.mp hb with ⟨msg, hmsg, hval⟩
    injection hval with h1 h2
    subst h1
    subst h2
    simp [hmsg]

theorem propagate_reviews (rd : ReviewData) : (propagate rd).reviews = rd.reviews := by
  unfold propagate
  rcases hf : lastStaffFold rd.reviews with ⟨t, b⟩
  cases t <;> simp

theorem chronoLastStaff_of_no_staff {reviews : List RegradeRequest}
    (h : ∀ msg ∈ reviews, msg.user ≠ Sender.staff) :
    chronoLastStaff reviews = none := by
  have hnil : (reviews.filter fun r => r.user = Sender.staff) = [] := by
    rw [List.filter_eq_nil_iff]
    intro a ha
    simpa using h a ha
  unfold chronoLastStaff
  rw [hnil]
  rfl

/-- C2: for every `ConversationRecord` after propagation
(`modify_with_classifications`), the record's outcome equals the label of the
chronologically last staff message in its message list (where two staff
messages sharing the maximum timestamp are resolved to the earliest-seen one),
and the outcome is `None` when the record has no staff message. -/
theorem C2_outcome_is_last_staff_label (cls : Classifier) (m : LinkMap)
    (p : String × ReviewData) (hp : p ∈ modify_with_classifications cls m) :
    p.2.accepted =
        (chronoLastStaff p.2.reviews).map (fun msg => msg.accepted.getD false) ∧
      ((∀ msg ∈ p.2.reviews, msg.user ≠ Sender.staff) → p.2.accepted = none) := by
  rcases List.mem_map.mp hp with ⟨q, hq, rfl⟩
  refine ⟨?_, ?_⟩
  · show (propagate q.2).accepted = _
    rw [propagate_accepted, propagate_reviews]
  · intro hns
    show (propagate q.2).accepted = none
    rw [propagate_accepted, chronoLastStaff_of_no_staff, Option.map_none']
    intro msg hmsg
    exact hns msg (by rw [propagate_reviews]; exact hmsg)

/-- A classifier stub used in concrete instantiations: always answers
`accepted` with confidence `0.7`. -/
def exC2cls : Classifier := fun texts => texts.map fun _ => ⟨["accepted"], [mkRat 7 10]⟩

/-- A two-message conversation: student request at `t = 0`, staff reply at
`t = 1`, in a record with `score = 1`, `weight = 2`. -/
def exC2map : LinkMap :=
  [("L", ⟨"L", [⟨Sender.student, "please check", 0, none⟩, ⟨Sender.staff, "no", 1, none⟩],
    1, 2, none⟩)]

/-- The record produced by `modify_with_classifications` on `exC2map`. -/
def exC2out : ReviewData :=
  ⟨"L", [⟨Sender.student, "please check", 0, none⟩, ⟨Sender.staff, "no", 1, some true⟩],
    1, 2, some true⟩

theorem C2_outcome_is_last_staff_label_witness :
    (("L", exC2out) ∈ modify_with_classifications exC2cls exC2map) ∧
      exC2out.accepted =
        (chronoLastStaff exC2out.reviews).map (fun msg => msg.accepted.getD false) :=
  ⟨by decide,
   (C2_outcome_is_last_staff_label exC2cls exC2map ("L", exC2out) (by decide)).1⟩

/-! ## Characterization of the write-back fold (claim C1 machinery) -/

theorem alookup_cons {α : Type} (k : String) (v : α) (rest : List (String × α))
    (key : String) :
    alookup ((k, v) :: rest) key = if k = key then some v else alookup rest key := rfl

theorem alookup_map_value {α β : Type} (f : α → β) (m : List (String × α)) (k : String) :
    alookup (m.map fun p => (p.1, f p.2)) k = (alookup m k).map f := by
  induction m with
  | nil => rfl
  | cons p rest ih =>
    obtain ⟨pk, pv⟩ := p
    by_cases h : pk = k <;> simp [alookup_cons, h, ih]

theorem alookup_dictSet_self {α : Type} {m : List (String × α)} {k : String} {v0 : α}
    (h : alookup m k = some v0) (v : α) : alookup (dictSet m k v) k = some v := by
  induction m with
  | nil => simp [alookup] at h
  | cons p rest ih =>
    obtain ⟨pk, pv⟩ := p
    by_cases hk : pk = k
    · simp [dictSet, alookup_cons, hk]
    · rw [alookup_cons, if_neg hk] at h
      simpa [dictSet, alookup_cons, hk] using ih h

theorem alookup_dictSet_ne {α : Type} (m : List (String × α)) {k k' : String}
    (h : k ≠ k') (v : α) : alookup (dictSet m k v) k' = alookup m k' := by
  induction m with
  | nil => rfl
  | cons p rest ih =>
    obtain ⟨pk, pv⟩ := p
    have hcons : dictSet ((pk, pv) :: rest) k v =
        (if pk = k then (k, v) else (pk, pv)) :: dictSet rest k v := rfl
    rw [hcons]
    by_cases hk : pk = k
    · rw [if_pos hk, alookup_cons, if_neg h, ih, alookup_cons,
        if_neg (by rw [hk]; exact h)]
    · rw [if_neg hk, alookup_cons, alookup_cons, ih]

theorem setAcceptedAt_getElem?_ne (l : List RegradeRequest) (i j : Nat) (h : i ≠ j)
    (b : Bool) : (setAcceptedAt l i b)[j]? = l[j]? := by
  induction l generalizing i j with
  | nil => rfl
  | cons r rest ih =>
    cases i with
    | zero =>
      cases j with
      | zero => exact absurd rfl h
      | succ m => simp [setAcceptedAt]
    | succ n =>
      cases j with
      | zero => simp [setAcceptedAt]
      | succ m => simpa [setAcceptedAt] using ih n m (by omega)

theorem setAcceptedAt_getElem?_self {l : List RegradeRequest} {i : Nat}
    {msg : RegradeRequest} (h : l[i]? = some msg) (b : Bool) :
    (setAcceptedAt l i b)[i]? = some { msg with accepted := some b } := by
  induction l generalizing i with
  | nil => simp at h
  | cons r rest ih =>
    cases i with
    | zero =>
      simp only [List.getElem?_cons_zero, Option.some.injEq] at h
      subst h
      simp [setAcceptedAt]
    | succ n =>
      simp only [List.getElem?_cons_succ] at h
      simpa [setAcceptedAt] using ih h

/-- Key predicate on batch entries: does this entry target message `idx` of
record `link`? -/
def dKey (link : String) (idx : Nat) (d : String × Nat × String) : Bool :=
  d.1 == link && d.2.1 == idx

/-- Key predicate on zipped (entry, result) pairs. -/
def keyMatches (link : String) (idx : Nat) (e : (String × Nat × String) × Bool) : Bool :=
  dKey link idx e.1

theorem staffEntries_shape {link : String} :
    ∀ {reviews : List RegradeRequest} {idx0 : Nat} {e : String × Nat × String},
      e ∈ staffEntries link reviews idx0 → e.1 = link ∧ idx0 ≤ e.2.1 := by
  intro reviews
  induction reviews with
  | nil => intro idx0 e he; simp [staffEntries] at he
  | cons r rest ih =>
    intro idx0 e he
    simp only [staffEntries, List.mem_append] at he
    rcases he with he | he
    · split at he
      · simp at he
        subst he
        exact ⟨rfl, le_refl _⟩
      · simp at he
    · obtain ⟨h1, h2⟩ := ih he
      exact ⟨h1, by omega⟩

theorem staffEntries_filter {j : Nat} {msg : RegradeRequest}
    {reviews : List RegradeRequest}
    (hj : reviews[j]? = some msg) (hstaff : msg.user = Sender.staff)
    (link : String) (idx0 : Nat) :
    (staffEntries link reviews idx0).filter (dKey link (idx0 + j)) =
      [(link, idx0 + j, pyStrip msg.text)] := by
  induction reviews generalizing j idx0 with
  | nil => simp at hj
  | cons r rest ih =>
    cases j with
    | zero =>
      have hr : msg = r := by
        have := hj
        simp only [List.getElem?_cons_zero, Option.some.injEq] at this
        exact this.symm
      subst hr
      simp only [staffEntries]
      rw [if_pos hstaff, List.filter_append]
      have h1 : ([(link, idx0, pyStrip msg.text)].filter (dKey link (idx0 + 0))) =
          [(link, idx0 + 0, pyStrip msg.text)] := by
        simp [dKey]
      have h2 : (staffEntries link rest (idx0 + 1)).filter (dKey link (idx0 + 0)) = [] := by
        rw [List.filter_eq_nil_iff]
        intro e he
        obtain ⟨-, hge⟩ := staffEntries_shape he
        simp only [dKey, Bool.and_eq_true, beq_iff_eq, not_and]
        intro _
        omega
      rw [h1, h2, List.append_nil]
    | succ n =>
      simp only [List.getElem?_cons_succ] at hj
      simp only [staffEntries]
      rw [List.filter_append]
      have h1 : ((if r.user = Sender.staff then [(link, idx0, pyStrip r.text)] else []).filter
          (dKey link (idx0 + (n + 1)))) = [] := by
        rw [List.filter_eq_nil_iff]
        intro e he
        split at he
        · simp only [List.mem_singleton] at he
          subst he
          simp only [dKey, Bool.and_eq_true, beq_iff_eq, not_and]
          intro _
          omega
        · simp at he
      have h2 := ih hj (idx0 + 1)
      rw [h1, List.nil_append]
      have harith : idx0 + 1 + n = idx0 + (n + 1) := by omega
      rw [harith] at h2
      exact h2

theorem dataToClassify_key_mem {m : LinkMap} {e : String × Nat × String}
    (he : e ∈ dataToClassify m) : e.1 ∈ m.map Prod.fst := by
  induction m with
  | nil => simp [dataToClassify] at he
  | cons p rest ih =>
    obtain ⟨k, rd⟩ := p
    simp only [dataToClassify, List.mem_append] at he
    rcases he with he | he
    · obtain ⟨h1, -⟩ := staffEntries_shape he
      simp [h1]
    · simp [ih he]

theorem dataToClassify_filter {m : LinkMap} {link : String} {rd : ReviewData}
    {idx : Nat} {msg : RegradeRequest}
    (hnd : (m.map Prod.fst).Nodup)
    (hrd : alookup m link = some rd) (hmsg : rd.reviews[idx]? = some msg)
    (hstaff : msg.user = Sender.staff) :
    (dataToClassify m).filter (dKey link idx) = [(link, idx, pyStrip msg.text)] := by
  induction m with
  | nil => simp [alookup] at hrd
  | cons p rest ih =>
    obtain ⟨k, rdk⟩ := p
    rw [List.map_cons, List.nodup_cons] at hnd
    obtain ⟨hk_notin, hnd'⟩ := hnd
    simp only [dataToClassify]
    rw [List.filter_append]
    by_cases hk : k = link
    · subst hk
      rw [alookup_cons, if_pos rfl, Option.some.injEq] at hrd
      subst hrd
      have h1 : (staffEntries k rdk.reviews 0).filter (dKey k idx) =
          [(k, idx, pyStrip msg.text)] := by
        have := staffEntries_filter hmsg hstaff k 0
        simpa using this
      have h2 : (dataToClassify rest).filter (dKey k idx) = [] := by
        rw [List.filter_eq_nil_iff]
        intro e he
        have hmem := dataToClassify_key_mem he
        simp [dKey]
        intro h1'
        exact absurd (h1' ▸ hmem) hk_notin
      rw [h1, h2, List.append_nil]
    · rw [alookup_cons, if_neg hk] at hrd
      have h1 : (staffEntries k rdk.reviews 0).filter (dKey link idx) = [] := by
        rw [List.filter_eq_nil_iff]
        intro e he
        obtain ⟨h1', -⟩ := staffEntries_shape he
        simp [dKey, h1', hk]
      rw [h1, List.nil_append]
      exact ih hnd' hrd

theorem countP_zip_le {α β : Type} (p : α → Bool) :
    ∀ (l : List α) (l2 : List β), ((l.zip l2).countP fun e => p e.1) ≤ l.countP p := by
  intro l
  induction l with
  | nil => intro l2; simp
  | cons a l ih =>
    intro l2
    cases l2 with
    | nil => simp [List.countP_cons]
    | cons b l2 =>
      have h := ih l2
      simp only [List.zip_cons_cons, List.countP_cons]
      by_cases hpa : p a = true <;> simp only [hpa] <;> omega

theorem mem_zip_of_mem {α β : Type} {x : α} :
    ∀ (l : List α) (l2 : List β), l.length ≤ l2.length → x ∈ l →
      ∃ y, (x, y) ∈ l.zip l2 := by
  intro l
  induction l with
  | nil => intro l2 _ hx; cases hx
  | cons a l ih =>
    intro l2 hlen hx
    cases l2 with
    | nil => simp at hlen
    | cons b l2 =>
      rcases List.mem_cons.mp hx with rfl | hx'
      · exact ⟨b, by rw [List.zip_cons_cons]; exact List.mem_cons_self _ _⟩
      · obtain ⟨y, hy⟩ := ih l2 (by simpa using hlen) hx'
        exact ⟨y, by rw [List.zip_cons_cons]; exact List.mem_cons_of_mem _ hy⟩

/-- Characterization of the write-back loop: the message at `(link, idx)` ends
with the overridden result of the unique entry targeting it (or is untouched
if no entry targets it), while the record's score and weight, and the message's
user, text and timestamp, are preserved. -/
theorem foldl_modifyStep_char (link : String) (idx : Nat) :
    ∀ (L : List ((String × Nat × String) × Bool)) (m : LinkMap) (rd : ReviewData)
      (msg : RegradeRequest),
      alookup m link = some rd → rd.reviews[idx]? = some msg →
      L.countP (keyMatches link idx) ≤ 1 →
      ∃ rd' msg',
        alookup (L.foldl modifyStep m) link = some rd' ∧
        rd'.score = rd.score ∧ rd'.weight = rd.weight ∧
        rd'.reviews[idx]? = some msg' ∧
        msg'.user = msg.user ∧ msg'.text = msg.text ∧ msg'.timestamp = msg.timestamp ∧
        msg'.accepted = (match L.find? (keyMatches link idx) with
                         | none => msg.accepted
                         | some e => some (applyOverride rd.score rd.weight e.2)) := by
  intro L
  induction L with
  | nil =>
    intro m rd msg hrd hmsg _
    exact ⟨rd, msg, hrd, rfl, rfl, hmsg, rfl, rfl, rfl, rfl⟩
  | cons e L ih =>
    intro m rd msg hrd hmsg hcount
    rw [List.countP_cons] at hcount
    by_cases he : keyMatches link idx e = true
    · obtain ⟨hl, hi⟩ : e.1.1 = link ∧ e.1.2.1 = idx := by
        simpa [keyMatches, dKey] using he
      have hstep : alookup (modifyStep m e) link =
          some { rd with
            reviews := setAcceptedAt rd.reviews idx (applyOverride rd.score rd.weight e.2) } := by
        unfold modifyStep
        rw [hl, hrd, hi]
        exact alookup_dictSet_self hrd _
      have hmsg' :
          (setAcceptedAt rd.reviews idx (applyOverride rd.score rd.weight e.2))[idx]? =
            some { msg with accepted := some (applyOverride rd.score rd.weight e.2) } :=
        setAcceptedAt_getElem?_self hmsg _
      have hcount' : L.countP (keyMatches link idx) = 0 := by
        rw [if_pos he] at hcount
        omega
      have hfindL : L.find? (keyMatches link idx) = none :=
        List.find?_eq_none.mpr fun x hx => by
          have hz := List.countP_eq_zero.mp hcount' x hx
          simp [hz]
      obtain ⟨rd', msg', a1, a2, a3, a4, a5, a6, a7, a8⟩ :=
        ih (modifyStep m e) _ _ hstep hmsg' (by omega)
      refine ⟨rd', msg', by rwa [List.foldl_cons], a2, a3, a4, a5, a6, a7, ?_⟩
      rw [List.find?_cons_of_pos _ he, a8, hfindL]
    · have hcount' : L.countP (keyMatches link idx) ≤ 1 := by
        rw [if_neg he] at hcount
        omega
      have hfc : (e :: L).find? (keyMatches link idx) = L.find? (keyMatches link idx) :=
        List.find?_cons_of_neg _ he
      cases hlk : alookup m e.1.1 with
      | none =>
        have hstep : modifyStep m e = m := by
          unfold modifyStep
          rw [hlk]
        obtain ⟨rd', msg', a1, a2, a3, a4, a5, a6, a7, a8⟩ := ih m rd msg hrd hmsg hcount'
        exact ⟨rd', msg', by rw [List.foldl_cons, hstep]; exact a1, a2, a3, a4, a5, a6, a7,
          by rw [hfc]; exact a8⟩
      | some rd0 =>
        by_cases hel : e.1.1 = link
        · have hrd0 : rd0 = rd := by
            rw [hel] at hlk
            rw [hlk] at hrd
            exact (Option.some.injEq _ _).mp hrd
          subst hrd0
          have hii : e.1.2.1 ≠ idx := by
            intro hcontra
            apply he
            simp [keyMatches, dKey, hel, hcontra]
          have hstep : alookup (modifyStep m e) link =
              some { rd0 with
                reviews := setAcceptedAt rd0.reviews e.1.2.1
                  (applyOverride rd0.score rd0.weight e.2) } := by
            unfold modifyStep
            rw [hlk, hel]
            exact alookup_dictSet_self (hel ▸ hlk) _
          have hmsg2 :
              (setAcceptedAt rd0.reviews e.1.2.1 (applyOverride rd0.score rd0.weight e.2))[idx]? =
                some msg := by
            rw [setAcceptedAt_getElem?_ne _ _ _ hii]
            exact hmsg
          obtain ⟨rd', msg', a1, a2, a3, a4, a5, a6, a7, a8⟩ :=
            ih (modifyStep m e) _ _ hstep hmsg2 hcount'
          exact ⟨rd', msg', by rwa [List.foldl_cons], a2, a3, a4, a5, a6, a7,
            by rw [hfc]; exact a8⟩
        · have hstep : alookup (modifyStep m e) link = some rd := by
            unfold modifyStep
            rw [hlk]
            rw [alookup_dictSet_ne m hel _]
            exact hrd
          obtain ⟨rd', msg', a1, a2, a3, a4, a5, a6, a7, a8⟩ :=
            ih (modifyStep m e) _ _ hstep hmsg hcount'
          exact ⟨rd', msg', by rwa [List.foldl_cons], a2, a3, a4, a5, a6, a7,
            by rw [hfc]; exact a8⟩

/-- The classifier's tentative label for the staff message at `(link, idx)`:
the zip partner of that message's batch entry in `classify_responses`'s
output. -/
def tentativeOf (cls : Classifier) (m : LinkMap) (link : String) (idx : Nat) :
    Option Bool :=
  (((dataToClassify m).zip (classify_responses cls (textOnly (dataToClassify m)))).find?
      (keyMatches link idx)).map (·.2)

/-- C1: for every staff message, with `score`/`weight` taken from the owning
record: if `weight > 0` and `score >= weight` the stored outcome is forced to
`true`; else if `weight > 0` and `score <= 0` it is forced to `false`;
otherwise (including the `weight = 0` case) the classifier's tentative label
passes through unmodified.  The forced branches do not depend on the
classifier at all. -/
theorem C1_score_weight_override (cls : Classifier) (m : LinkMap)
    (hnd : (m.map Prod.fst).Nodup)
    (hwf : (cls (textOnly (dataToClassify m))).length = (dataToClassify m).length)
    (link : String) (rd : ReviewData) (idx : Nat) (msg : RegradeRequest)
    (hrd : alookup m link = some rd) (hmsg : rd.reviews[idx]? = some msg)
    (hstaff : msg.user = Sender.staff) :
    ∃ rd' msg' b,
      alookup (modify_with_classifications cls m) link = some rd' ∧
      rd'.reviews[idx]? = some msg' ∧
      tentativeOf cls m link idx = some b ∧
      msg'.accepted = some (if rd.weight > 0 ∧ rd.score ≥ rd.weight then true
                            else if rd.weight > 0 ∧ rd.score ≤ 0 then false
                            else b) := by
  have hdata := dataToClassify_filter hnd hrd hmsg hstaff
  have hdmem : (link, idx, pyStrip msg.text) ∈ dataToClassify m := by
    have hmem : (link, idx, pyStrip msg.text) ∈ (dataToClassify m).filter (dKey link idx) := by
      rw [hdata]
      exact List.mem_singleton_self _
    exact List.mem_of_mem_filter hmem
  have hlen : (dataToClassify m).length ≤
      (classify_responses cls (textOnly (dataToClassify m))).length := by
    unfold classify_responses
    rw [List.length_map, hwf]
  obtain ⟨y, hy⟩ := mem_zip_of_mem _ _ hlen hdmem
  obtain ⟨E, hE⟩ : ∃ E,
      ((dataToClassify m).zip
        (classify_responses cls (textOnly (dataToClassify m)))).find?
          (keyMatches link idx) = some E := by
    cases hf : ((dataToClassify m).zip
        (classify_responses cls (textOnly (dataToClassify m)))).find?
          (keyMatches link idx) with
    | some E => exact ⟨E, rfl⟩
    | none =>
      exfalso
      apply List.find?_eq_none.mp hf _ hy
      simp [keyMatches, dKey]
  have hc1 : ((dataToClassify m).zip
      (classify_responses cls (textOnly (dataToClassify m)))).countP
        (keyMatches link idx) ≤ 1 := by
    have hle := countP_zip_le (dKey link idx) (dataToClassify m)
      (classify_responses cls (textOnly (dataToClassify m)))
    have heq : (dataToClassify m).countP (dKey link idx) = 1 := by
      rw [List.countP_eq_length_filter, hdata]
      rfl
    calc ((dataToClassify m).zip
        (classify_responses cls (textOnly (dataToClassify m)))).countP
          (keyMatches link idx)
        ≤ (dataToClassify m).countP (dKey link idx) := hle
      _ = 1 := heq
  obtain ⟨rd1, msg1, h1, h2, h3, h4, h5, h6, h7, h8⟩ :=
    foldl_modifyStep_char link idx
      ((dataToClassify m).zip (classify_responses cls (textOnly (dataToClassify m))))
      m rd msg hrd hmsg hc1
  have hcp : alookup (classifyPhase cls m) link = some rd1 := h1
  refine ⟨propagate rd1, msg1, E.2, ?_, ?_, ?_, ?_⟩
  · unfold modify_with_classifications
    rw [alookup_map_value, hcp]
    rfl
  · rw [propagate_reviews]
    exact h4
  · unfold tentativeOf
    rw [hE]
    rfl
  · rw [h8, hE]
    rfl

/-- A classifier stub that always answers `rejected` with full confidence. -/
def exC1cls : Classifier := fun texts => texts.map fun _ => ⟨["rejected"], [1]⟩

/-- The full-credit record used to exercise the override. -/
def exC1rec : ReviewData :=
  ⟨"K", [⟨Sender.student, "more points?", 0, none⟩, ⟨Sender.staff, "ok", 1, none⟩], 5, 5, none⟩

/-- The staff message of `exC1rec`. -/
def exC1staffmsg : RegradeRequest := ⟨Sender.staff, "ok", 1, none⟩

/-- Singleton link map around `exC1rec`. -/
def exC1map : LinkMap := [("K", exC1rec)]

theorem C1_score_weight_override_witness :
    ((exC1map.map Prod.fst).Nodup ∧
      (exC1cls (textOnly (dataToClassify exC1map))).length =
        (dataToClassify exC1map).length ∧
      alookup exC1map "K" = some exC1rec ∧
      exC1rec.reviews[1]? = some exC1staffmsg ∧
      exC1staffmsg.user = Sender.staff) ∧
    (∃ rd' msg' b,
      alookup (modify_with_classifications exC1cls exC1map) "K" = some rd' ∧
      rd'.reviews[1]? = some msg' ∧
      tentativeOf exC1cls exC1map "K" 1 = some b ∧
      msg'.accepted = some (if exC1rec.weight > 0 ∧ exC1rec.score ≥ exC1rec.weight then true
                            else if exC1rec.weight > 0 ∧ exC1rec.score ≤ 0 then false
                            else b)) :=
  ⟨⟨by decide, by decide, by decide, by decide, by decide⟩,
   C1_score_weight_override exC1cls exC1map (by decide) (by decide) "K" exC1rec 1
     exC1staffmsg (by decide) (by decide) (by decide)⟩

/-- C3: every staff message is sent to the classifier as its stripped text
with empty (i.e. originally empty or whitespace-only) text replaced by the
literal `"accepted"`, and the tentative label of a result is `true` exactly
when the top-ranked label is `"accepted"` with confidence at least `0.6`;
otherwise it is `false`. -/
theorem C3_blank_substitution_and_threshold (m : LinkMap)
    (hnd : (m.map Prod.fst).Nodup)
    (link : String) (rd : ReviewData) (idx : Nat) (msg : RegradeRequest)
    (hrd : alookup m link = some rd) (hmsg : rd.reviews[idx]? = some msg)
    (hstaff : msg.user = Sender.staff) :
    ∃ j : Nat, (dataToClassify m)[j]? = some (link, idx, pyStrip msg.text) ∧
      (textOnly (dataToClassify m))[j]? =
        some (if pyStrip msg.text = "" then "accepted" else pyStrip msg.text) ∧
      ∀ (cls : Classifier) (res : ClsResult),
        (cls (textOnly (dataToClassify m)))[j]? = some res →
        (classify_responses cls (textOnly (dataToClassify m)))[j]? =
          some (classifyOne res) ∧
        ∀ l0 ls s0 ss, res.labels = l0 :: ls → res.scores = s0 :: ss →
          (classifyOne res = true ↔ (l0 = "accepted" ∧ mkRat 6 10 ≤ s0)) := by
  have hdata := dataToClassify_filter hnd hrd hmsg hstaff
  have hdmem : (link, idx, pyStrip msg.text) ∈ dataToClassify m := by
    have hmem : (link, idx, pyStrip msg.text) ∈
        (dataToClassify m).filter (dKey link idx) := by
      rw [hdata]
      exact List.mem_singleton_self _
    exact List.mem_of_mem_filter hmem
  obtain ⟨j, hj⟩ := List.getElem?_of_mem hdmem
  refine ⟨j, hj, ?_, ?_⟩
  · unfold textOnly
    rw [List.getElem?_map, hj]
    rfl
  · intro cls res hres
    refine ⟨?_, ?_⟩
    · unfold classify_responses
      rw [List.getElem?_map, hres]
      rfl
    · intro l0 ls s0 ss hl hs
      unfold classifyOne
      rw [hl, hs]
      simp

/-- A single-record map whose staff reply is whitespace-only, exercising the
blank-text substitution. -/
def exC3map : LinkMap :=
  [("M", ⟨"M", [⟨Sender.staff, "   ", 3, none⟩], 1, 2, none⟩)]

/-- The record of `exC3map`. -/
def exC3rec : ReviewData := ⟨"M", [⟨Sender.staff, "   ", 3, none⟩], 1, 2, none⟩

/-- The staff message of `exC3map`. -/
def exC3msg : RegradeRequest := ⟨Sender.staff, "   ", 3, none⟩

theorem C3_blank_substitution_and_threshold_witness :
    ((exC3map.map Prod.fst).Nodup ∧ alookup exC3map "M" = some exC3rec ∧
      exC3rec.reviews[0]? = some exC3msg ∧ exC3msg.user = Sender.staff) ∧
    (∃ j : Nat, (dataToClassify exC3map)[j]? = some ("M", 0, pyStrip exC3msg.text) ∧
      (textOnly (dataToClassify exC3map))[j]? =
        some (if pyStrip exC3msg.text = "" then "accepted" else pyStrip exC3msg.text) ∧
      ∀ (cls : Classifier) (res : ClsResult),
        (cls (textOnly (dataToClassify exC3map)))[j]? = some res →
        (classify_responses cls (textOnly (dataToClassify exC3map)))[j]? =
          some (classifyOne res) ∧
        ∀ l0 ls s0 ss, res.labels = l0 :: ls → res.scores = s0 :: ss →
          (classifyOne res = true ↔ (l0 = "accepted" ∧ mkRat 6 10 ≤ s0))) :=
  ⟨⟨by decide, by decide, by decide, by decide⟩,
   C3_blank_substitution_and_threshold exC3map (by decide) "M" exC3rec 0 exC3msg
     (by decide) (by decide) (by decide)⟩

/-! ## Aggregation (`main`, `analyze.py` lines 326-339) -/

/-- The inner counting loop of `main`: accumulate
`(num_questions_accepted, num_questions_responded)` over a student's regrade
list.  `link_map[info["review_link"]]` on a missing key raises `KeyError`,
modelled as `Except.error`. -/
def countAccepted (link_map : LinkMap) :
    List RegradeInfoMetadata → Nat × Nat → Except String (Nat × Nat)
  | [], acc => Except.ok acc
  | info :: rest, acc =>
      match alookup link_map info.review_link with
      | none => Except.error info.review_link
      | some rd =>
          match rd.accepted with
          | none => countAccepted link_map rest acc
          | some b =>
              countAccepted link_map rest (acc.1 + (if b then 1 else 0), acc.2 + 1)

/-- The per-student aggregation loop of `main`: set `num_accepted` and
`num_responded` for every student, in order; the first `KeyError` aborts. -/
def aggregate (link_map : LinkMap) : RegradeInfoDict → Except String RegradeInfoDict
  | [] => Except.ok []
  | p :: rest =>
      match countAccepted link_map p.2.regrades (0, 0) with
      | Except.error e => Except.error e
      | Except.ok counts =>
          match aggregate link_map rest with
          | Except.error e => Except.error e
          | Except.ok rest' =>
              Except.ok ((p.1,
                { p.2 with num_accepted := counts.1, num_responded := counts.2 }) :: rest')

/-- Does this request's conversation have a non-`None` outcome in the map? -/
def respondedP (link_map : LinkMap) (info : RegradeInfoMetadata) : Bool :=
  match alookup link_map info.review_link with
  | some rd => rd.accepted.isSome
  | none => false

/-- Does this request's conversation have outcome `true` in the map? -/
def acceptedP (link_map : LinkMap) (info : RegradeInfoMetadata) : Bool :=
  match alookup link_map info.review_link with
  | some rd => rd.accepted == some true
  | none => false

theorem countAccepted_ok {lm : LinkMap} :
    ∀ (infos : List RegradeInfoMetadata) (acc res : Nat × Nat),
      countAccepted lm infos acc = Except.ok res →
      res = (acc.1 + infos.countP (acceptedP lm), acc.2 + infos.countP (respondedP lm)) := by
  intro infos
  induction infos with
  | nil =>
    intro acc res h
    simp only [countAccepted, Except.ok.injEq] at h
    simp [← h]
  | cons info rest ih =>
    intro acc res h
    simp only [countAccepted] at h
    split at h
    · cases h
    · rename_i rd hlk
      split at h
      · rename_i hacc
        have hres := ih _ _ h
        subst hres
        simp [List.countP_cons, respondedP, acceptedP, hlk, hacc]
      · rename_i b hacc
        have hres := ih _ _ h
        subst hres
        simp only [List.countP_cons, respondedP, acceptedP, hlk, hacc]
        cases b <;> simp [Prod.ext_iff] <;> omega

theorem aggregate_ok {lm : LinkMap} :
    ∀ (ri ri' : RegradeInfoDict), aggregate lm ri = Except.ok ri' →
      ri'.length = ri.length ∧
      ∀ (i : Nat) (p : String × RegradeInfo), ri[i]? = some p → ∃ info',
        ri'[i]? = some (p.1, info') ∧
        info'.regrades = p.2.regrades ∧ info'.num_comments = p.2.num_comments ∧
        info'.num_responded = p.2.regrades.countP (respondedP lm) ∧
        info'.num_accepted = p.2.regrades.countP (acceptedP lm) := by
  intro ri
  induction ri with
  | nil =>
    intro ri' h
    simp only [aggregate, Except.ok.injEq] at h
    subst h
    exact ⟨rfl, fun i p hp => by simp at hp⟩
  | cons p rest ih =>
    intro ri' h
    simp only [aggregate] at h
    split at h
    · cases h
    · rename_i counts hc
      split at h
      · cases h
      · rename_i rest' hr
        simp only [Except.ok.injEq] at h
        subst h
        obtain ⟨hlen, hall⟩ := ih rest' hr
        have hcounts := countAccepted_ok p.2.regrades (0, 0) counts hc
        refine ⟨by simpa using hlen, ?_⟩
        intro i q hq
        cases i with
        | zero =>
          simp only [List.getElem?_cons_zero, Option.some.injEq] at hq
          subst hq
          refine ⟨{ p.2 with num_accepted := counts.1, num_responded := counts.2 }, ?_, rfl, rfl, ?_, ?_⟩
          · simp
          · simp [hcounts]
          · simp [hcounts]
        | succ n =>
          simp only [List.getElem?_cons_succ] at hq ⊢
          exact hall n q hq

/-- C4: after aggregation, each student's `num_responded` is the number of
their requests whose joined conversation has a non-`None` outcome, and
`num_accepted` the number with outcome `true`; requests whose conversation has
outcome `None` count toward neither. -/
theorem C4_aggregation_counts (ri : RegradeInfoDict) (lm : LinkMap)
    (ri' : RegradeInfoDict) (hok : aggregate lm ri = Except.ok ri') :
    ri'.length = ri.length ∧
    ∀ (i : Nat) (p : String × RegradeInfo), ri[i]? = some p → ∃ info',
      ri'[i]? = some (p.1, info') ∧
      info'.regrades = p.2.regrades ∧ info'.num_comments = p.2.num_comments ∧
      info'.num_responded = p.2.regrades.countP (respondedP lm) ∧
      info'.num_accepted = p.2.regrades.countP (acceptedP lm) :=
  aggregate_ok ri ri' hok

/-- A link map for the aggregation witness: one accepted conversation, one
unanswered conversation. -/
def exC4lm : LinkMap :=
  [("r1", ⟨"r1", [], 5, 5, some true⟩), ("r2", ⟨"r2", [], 0, 5, none⟩)]

/-- One student with requests joined to `exC4lm`. -/
def exC4ri : RegradeInfoDict :=
  [("alice", ⟨2, [⟨"Q1", "g", "q1", "r1"⟩, ⟨"Q2", "g", "q2", "r2"⟩], 0, 0⟩)]

/-- Expected aggregation output on `exC4ri`/`exC4lm`. -/
def exC4out : RegradeInfoDict :=
  [("alice", ⟨2, [⟨"Q1", "g", "q1", "r1"⟩, ⟨"Q2", "g", "q2", "r2"⟩], 1, 1⟩)]

theorem C4_aggregation_counts_witness :
    (aggregate exC4lm exC4ri = Except.ok exC4out) ∧
    (exC4out.length = exC4ri.length ∧
      ∀ (i : Nat) (p : String × RegradeInfo), exC4ri[i]? = some p → ∃ info',
        exC4out[i]? = some (p.1, info') ∧
        info'.regrades = p.2.regrades ∧ info'.num_comments = p.2.num_comments ∧
        info'.num_responded = p.2.regrades.countP (respondedP exC4lm) ∧
        info'.num_accepted = p.2.regrades.countP (acceptedP exC4lm)) :=
  ⟨by rfl, C4_aggregation_counts exC4ri exC4lm exC4out (by rfl)⟩

/-! ## Summary-table parsing (`utils/parse.py`, `parse_regrade_page`) -/

/-- Constant `BASE_URL` from `api/client.py`. -/
def BASE_URL : String := "https://www.gradescope.com"

/-- Python `urljoin(BASE_URL, rel)`; for the site-relative hrefs in the summary table
this is concatenation onto the base. -/
def urljoinBase (rel : String) : String := BASE_URL ++ rel

/-- One row of the summary table, as produced by the external HTML parser:
the name, question, grader and review columns.  A missing `<a>` tag in the
question or review column is `none`. -/
structure Row where
  name : String
  question : String
  grader : String
  question_link : Option String
  review_link : Option String
deriving DecidableEq, Repr

/-- State of the `parse_regrade_page` loop: the accumulating `regrade_info`
dict and the `student_review_links` dedup sets. -/
structure ParseState where
  info : RegradeInfoDict
  seen : List (String × List String)
deriving DecidableEq, Repr

/-- The entry-creation preamble of the row loop (`parse.py` lines 36-48):
create zeroed `regrade_info` and `student_review_links` entries for a new
student name. -/
def ensureStudent (s : ParseState) (name : String) : ParseState :=
  ⟨(if (alookup s.info name).isSome then s.info
    else s.info ++ [(name, ⟨0, [], 0, 0⟩)]),
   (if (alookup s.seen name).isSome then s.seen
    else s.seen ++ [(name, [])])⟩

/-- Statement `regrade_info[student_name]["num_comments"] += 1` (`parse.py` line 70). -/
def bumpComments (info : RegradeInfoDict) (name : String) : RegradeInfoDict :=
  info.map fun p =>
    if p.1 = name then (p.1, { p.2 with num_comments := p.2.num_comments + 1 }) else p

/-- Statement `regrade_info[student_name]["regrades"].append(...)` (`parse.py` line 78). -/
def addRegrade (info : RegradeInfoDict) (name : String) (meta : RegradeInfoMetadata) :
    RegradeInfoDict :=
  info.map fun p =>
    if p.1 = name then (p.1, { p.2 with regrades := p.2.regrades ++ [meta] }) else p

/-- Statement `student_review_links[student_name].add(review_absolute_link)`
(`parse.py` line 75). -/
def addSeen (seen : List (String × List String)) (name link : String) :
    List (String × List String) :=
  seen.map fun p => if p.1 = name then (p.1, p.2 ++ [link]) else p

/-- One iteration of the row loop of `parse_regrade_page`
(`parse.py` lines 26-85): create the student entry, skip the row if the
question or review link tag is missing, count the comment, and record the
request unless its review link was already seen for this student. -/
def parseStep (s : ParseState) (row : Row) : ParseState :=
  let s1 := ensureStudent s row.name
  match row.question_link with
  | none => s1
  | some qrel =>
      match row.review_link with
      | none => s1
      | some rrel =>
          let rlink := urljoinBase rrel
          let info1 := bumpComments s1.info row.name
          if rlink ∈ (alookup s1.seen row.name).getD [] then ⟨info1, s1.seen⟩
          else
            ⟨addRegrade info1 row.name
               ⟨row.question, row.grader, urljoinBase qrel, rlink⟩,
             addSeen s1.seen row.name rlink⟩

/-- Function `parse_regrade_page` (`utils/parse.py`): fold the row loop from the empty
state and return `regrade_info`. -/
def parse_regrade_page (rows : List Row) : RegradeInfoDict :=
  (rows.foldl parseStep ⟨[], []⟩).info

/-- The parse-time invariant: each student's deduplicated request list is no
longer than their raw comment count. -/
def ParseInv (info : RegradeInfoDict) : Prop :=
  ∀ p ∈ info, p.2.regrades.length ≤ p.2.num_comments

theorem ensureStudent_inv {s : ParseState} (hs : ParseInv s.info) (name : String) :
    ParseInv (ensureStudent s name).info := by
  intro p hp
  unfold ensureStudent at hp
  dsimp only at hp
  split at hp
  · exact hs p hp
  · rcases List.mem_append.mp hp with h | h
    · exact hs p h
    · simp only [List.mem_singleton] at h
      subst h
      simp

theorem bumpComments_inv {info : RegradeInfoDict} (hs : ParseInv info) (name : String) :
    ParseInv (bumpComments info name) := by
  intro p hp
  rcases List.mem_map.mp hp with ⟨q, hq, rfl⟩
  have hb := hs q hq
  by_cases h : q.1 = name <;> simp [h] <;> omega

theorem bump_addRegrade_inv {info : RegradeInfoDict} (hs : ParseInv info)
    (name : String) (meta : RegradeInfoMetadata) :
    ParseInv (addRegrade (bumpComments info name) name meta) := by
  intro p hp
  rcases List.mem_map.mp hp with ⟨q, hq, rfl⟩
  rcases List.mem_map.mp hq with ⟨q0, hq0, rfl⟩
  have hb := hs q0 hq0
  by_cases h : q0.1 = name <;> simp [h] <;> omega

theorem parseStep_inv {s : ParseState} (hs : ParseInv s.info) (row : Row) :
    ParseInv (parseStep s row).info := by
  have h1 : ParseInv (ensureStudent s row.name).info := ensureStudent_inv hs row.name
  unfold parseStep
  cases row.question_link with
  | none => exact h1
  | some qrel =>
    cases row.review_link with
    | none => exact h1
    | some rrel =>
      dsimp only
      split
      · exact bumpComments_inv h1 row.name
      · exact bump_addRegrade_inv h1 row.name _

theorem parse_regrade_page_inv (rows : List Row) :
    ParseInv (parse_regrade_page rows) := by
  have hgen : ∀ (rows : List Row) (s : ParseState), ParseInv s.info →
      ParseInv ((rows.foldl parseStep s).info) := by
    intro rows
    induction rows with
    | nil => intro s hs; exact hs
    | cons row rest ih =>
      intro s hs
      exact ih _ (parseStep_inv hs row)
  exact hgen rows ⟨[], []⟩ (fun p hp => by cases hp)

theorem countP_accepted_le_responded (lm : LinkMap) (infos : List RegradeInfoMetadata) :
    infos.countP (acceptedP lm) ≤ infos.countP (respondedP lm) := by
  induction infos with
  | nil => simp
  | cons info rest ih =>
    simp only [List.countP_cons]
    have hmono : acceptedP lm info = true → respondedP lm info = true := by
      unfold acceptedP respondedP
      cases alookup lm info.review_link with
      | none => simp
      | some rd =>
        cases hacc : rd.accepted <;> simp [hacc]
    by_cases h : acceptedP lm info = true
    · simp [h, hmono h]
      omega
    · simp [h]
      split <;> omega

/-- C9: for every student after parsing and aggregation, the deduplicated
request list is no longer than the raw comment count, and
`num_accepted <= num_responded <= len(requests)`. -/
theorem C9_student_invariants (rows : List Row) (lm : LinkMap)
    (ri' : RegradeInfoDict)
    (hok : aggregate lm (parse_regrade_page rows) = Except.ok ri') :
    ∀ p ∈ ri', p.2.regrades.length ≤ p.2.num_comments ∧
      p.2.num_accepted ≤ p.2.num_responded ∧
      p.2.num_responded ≤ p.2.regrades.length := by
  intro p hp
  obtain ⟨hlen, hall⟩ := aggregate_ok (parse_regrade_page rows) ri' hok
  obtain ⟨i, hi⟩ := List.getElem?_of_mem hp
  have hilt : i < ri'.length := (List.getElem?_eq_some.mp hi).1
  have hilt' : i < (parse_regrade_page rows).length := by rwa [hlen] at hilt
  have hq : (parse_regrade_page rows)[i]? = some (parse_regrade_page rows)[i] :=
    List.getElem?_eq_getElem hilt'
  obtain ⟨info', hi', hreg, hcom, hresp, hacc⟩ := hall i _ hq
  have hpq : p = ((parse_regrade_page rows)[i].1, info') := by
    rw [hi] at hi'
    exact (Option.some.injEq _ _).mp hi'.symm |>.symm
  have hmem : (parse_regrade_page rows)[i] ∈ parse_regrade_page rows :=
    List.getElem_mem hilt'
  have hinv := parse_regrade_page_inv rows _ hmem
  subst hpq
  refine ⟨?_, ?_, ?_⟩
  · dsimp only
    rw [hreg, hcom]
    exact hinv
  · dsimp only
    rw [hresp, hacc]
    exact countP_accepted_le_responded lm _
  · dsimp only
    rw [hresp, hreg]
    exact List.countP_le_length _

/-- A valid summary row for the invariants witness. -/
def exC9row : Row := ⟨"alice", "Q1", "grader", some "/q1", some "/r1"⟩

/-- A link map joining `exC9row`, with an accepted outcome. -/
def exC9lm : LinkMap :=
  [(urljoinBase "/r1", ⟨urljoinBase "/r1", [], 5, 5, some true⟩)]

/-- The aggregated output for the invariants witness. -/
def exC9out : RegradeInfoDict :=
  [("alice", ⟨1, [⟨"Q1", "grader", urljoinBase "/q1", urljoinBase "/r1"⟩], 1, 1⟩)]

theorem C9_student_invariants_witness :
    (aggregate exC9lm (parse_regrade_page [exC9row]) = Except.ok exC9out) ∧
    (∀ p ∈ exC9out, p.2.regrades.length ≤ p.2.num_comments ∧
      p.2.num_accepted ≤ p.2.num_responded ∧
      p.2.num_responded ≤ p.2.regrades.length) :=
  ⟨by rfl, C9_student_invariants [exC9row] exC9lm exC9out (by rfl)⟩

/-- C10: a summary row whose question link or review link is missing is
skipped without contributing to `num_comments` or `regrades`, but the
student's zeroed entry is still created from the name column, so such a
student can appear in the output with `num_comments = 0` and an empty
regrades list. -/
theorem C10_missing_link_row_skipped (s : ParseState) (row : Row)
    (hbad : row.question_link = none ∨ row.review_link = none) :
    (parseStep s row).info =
      (if (alookup s.info row.name).isSome then s.info
       else s.info ++ [(row.name, ⟨0, [], 0, 0⟩)]) ∧
    parse_regrade_page [row] = [(row.name, ⟨0, [], 0, 0⟩)] := by
  have hstep : ∀ s' : ParseState, parseStep s' row = ensureStudent s' row.name := by
    intro s'
    unfold parseStep
    rcases hbad with h | h
    · rw [h]
    · rw [h]
      cases row.question_link <;> rfl
  refine ⟨by rw [hstep s]; rfl, ?_⟩
  show (List.foldl parseStep ⟨[], []⟩ [row]).info = _
  rw [List.foldl_cons, List.foldl_nil, hstep]
  rfl

/-- A row with a missing review-link tag. -/
def exC10row : Row := ⟨"bob", "Q2", "grader", some "/q2", none⟩

theorem C10_missing_link_row_skipped_witness :
    (exC10row.question_link = none ∨ exC10row.review_link = none) ∧
    ((parseStep ⟨[("ann", ⟨1, [], 0, 0⟩)], [("ann", [])]⟩ exC10row).info =
        (if (alookup [("ann", (⟨1, [], 0, 0⟩ : RegradeInfo))] exC10row.name).isSome
         then [("ann", ⟨1, [], 0, 0⟩)]
         else [("ann", ⟨1, [], 0, 0⟩)] ++ [(exC10row.name, ⟨0, [], 0, 0⟩)]) ∧
      parse_regrade_page [exC10row] = [(exC10row.name, ⟨0, [], 0, 0⟩)]) :=
  ⟨Or.inr rfl,
   C10_missing_link_row_skipped ⟨[("ann", ⟨1, [], 0, 0⟩)], [("ann", [])]⟩ exC10row
     (Or.inr rfl)⟩

/-! ## Review-page collection (`analyze.py`, `get_review_data`,
`get_all_review_data`) and the `main` data path -/

/-- A regrade-request object of the review page's structured payload (the
fields read by `format_request`); timestamps already converted from ISO
format by the stdlib. -/
structure RawRequest where
  student_comment : Option String
  staff_comment : Option String
  created_at : ℚ
  updated_at : ℚ
deriving Repr

/-- The `SubmissionGrader` payload fields read by `get_review_data`. -/
structure PropsData where
  open_request : Option RawRequest
  closed_requests : List (Option RawRequest)
  score : ℚ
  weight : ℚ
deriving Repr

/-- Result of `requests.get` on one review page: the request can raise
(timeout, connection error); otherwise the page's data div is absent, or
present with a payload that fails to parse (`json.loads`/key access raises),
or well-formed. -/
inductive FetchResult where
  | exn (msg : String)
  | page (dataDiv : Option (Except String PropsData))

/-- Function `format_request` (`analyze.py` lines 53-78). -/
def format_request : Option RawRequest → List RegradeRequest
  | none => []
  | some rr =>
      (match rr.student_comment with
       | some c => [⟨Sender.student, c, rr.created_at, none⟩]
       | none => []) ++
      (match rr.staff_comment with
       | some c => [⟨Sender.staff, c, rr.updated_at, none⟩]
       | none => [])

/-- Stable insertion into a timestamp-sorted list: the new element (which was
originally earlier) goes before elements with an equal timestamp. -/
def insertByTime (r : RegradeRequest) : List RegradeRequest → List RegradeRequest
  | [] => [r]
  | x :: xs =>
      if x.timestamp < r.timestamp then x :: insertByTime r xs else r :: x :: xs

/-- Statement `reviews.sort(key=lambda r: r["timestamp"])`: Python's sort is stable, and
every stable ascending sort computes the same list. -/
def sortByTime : List RegradeRequest → List RegradeRequest
  | [] => []
  | r :: rest => insertByTime r (sortByTime rest)

/-- Function `get_review_data` (`analyze.py` lines 81-120): a raised fetch propagates;
a page without the data div yields the default record with empty messages and
zero score/weight; a present div with an unparsable payload propagates the
parse exception; otherwise the open and closed requests are merged and
sorted. -/
def get_review_data (fetch : String → FetchResult) (link : String) :
    Except String ReviewData :=
  match fetch link with
  | FetchResult.exn e => Except.error e
  | FetchResult.page none => Except.ok ⟨link, [], 0, 0, none⟩
  | FetchResult.page (some (Except.error e)) => Except.error e
  | FetchResult.page (some (Except.ok props)) =>
      Except.ok ⟨link,
        sortByTime (format_request props.open_request ++
          (props.closed_requests.map format_request).flatten),
        props.score, props.weight, none⟩

/-- Assignment `link_map[result["link"]] = result`. -/
def insertResult (lm : LinkMap) (rd : ReviewData) : LinkMap :=
  if (alookup lm rd.link).isSome then dictSet lm rd.link rd else lm ++ [(rd.link, rd)]

/-- The result-gathering loop of `get_all_review_data`: iterating `pool.map`
re-raises the first unit's exception in the calling thread, aborting the rest
of the gathering. -/
def collectResults (fetch : String → FetchResult) :
    List String → LinkMap → Except String LinkMap
  | [], lm => Except.ok lm
  | link :: rest, lm =>
      match get_review_data fetch link with
      | Except.error e => Except.error e
      | Except.ok rd => collectResults fetch rest (insertResult lm rd)

/-- Function `get_all_review_data` (`analyze.py` lines 123-133): `ProcessPoolExecutor`
raises `ValueError` for a non-positive `max_workers`; otherwise the fetch
units run and their results are gathered. -/
def get_all_review_data (num_processes : Int) (fetch : String → FetchResult)
    (links : List String) : Except String LinkMap :=
  if num_processes ≤ 0 then Except.error "max_workers must be greater than 0"
  else collectResults fetch links []

/-- A fetch function whose link `"A"` raises a timeout and whose other links
return pages without the structured payload. -/
def exC5fetch : String → FetchResult
  | "A" => FetchResult.exn "ReadTimeout"
  | _ => FetchResult.page none

/-- C5 at the failing input: one link whose fetch raises aborts the whole
collection (in either position), losing the other links' records, while a
page that merely lacks the structured payload is recovered as the default
record and collection continues. -/
theorem C5_fetch_error_aborts_collection :
    get_all_review_data 10 exC5fetch ["A", "B"] = Except.error "ReadTimeout" ∧
    get_all_review_data 10 exC5fetch ["B", "A"] = Except.error "ReadTimeout" ∧
    get_all_review_data 10 exC5fetch ["B", "C"] =
      Except.ok [("B", ⟨"B", [], 0, 0, none⟩), ("C", ⟨"C", [], 0, 0, none⟩)] :=
  ⟨rfl, rfl, rfl⟩

/-- Function `get_metric` (`analyze.py` lines 136-143). -/
def get_metric (data : RegradeInfo) (metric : String) : Nat :=
  if metric = "total" then data.num_comments
  else if metric = "unique" then data.regrades.length
  else data.num_comments

/-- The review-link collection loop of `main` (`analyze.py` lines 304-313):
only students passing the `min_requests` filter contribute review links; the
Python `set` is modelled as an insertion-ordered deduplicated list. -/
def reviewLinks (ri : RegradeInfoDict) (metric : String) (min_requests : Nat) :
    List String :=
  ri.foldl
    (fun acc p =>
      if min_requests ≤ get_metric p.2 metric then
        p.2.regrades.foldl
          (fun acc2 info =>
            if info.review_link ∈ acc2 then acc2 else acc2 ++ [info.review_link]) acc
      else acc)
    []

/-- The data-producing portion of a cache-miss run of `main`
(`analyze.py` lines 302-343): collect the filtered review links, classify if
enabled, aggregate per student, and return the pair that `save_cache` stores.
Any uncaught exception aborts the run before anything is stored. -/
def runStore (ri0 : RegradeInfoDict) (fetch : String → FetchResult)
    (cls : Classifier) (metric : String) (min_requests : Nat)
    (num_processes : Int) (classify : Bool) :
    Except String (RegradeInfoDict × LinkMap) :=
  match get_all_review_data num_processes fetch (reviewLinks ri0 metric min_requests) with
  | Except.error e => Except.error e
  | Except.ok lm0 =>
      let lm := if classify then modify_with_classifications cls lm0 else lm0
      match aggregate lm ri0 with
      | Except.error e => Except.error e
      | Except.ok ri => Except.ok (ri, lm)

/-- One student with a single regrade request for link `"L"`. -/
def exC6ri : RegradeInfoDict := [("alice", ⟨1, [⟨"Q1", "g", "q1", "L"⟩], 0, 0⟩)]

/-- All review pages lack the structured payload (default records). -/
def exC6fetch : String → FetchResult := fun _ => FetchResult.page none

/-- A classifier stub for the C6 evaluation. -/
def exC6cls : Classifier := fun texts => texts.map fun _ => ⟨["accepted"], [1]⟩

/-- C6 at the failing input: with `min_requests = 2` the only student is
filtered out of collection, so the link map lacks `"L"` and aggregation
raises `KeyError("L")` — the run aborts and nothing is stored; with
`min_requests = 0` the run stores the full data.  The stored data therefore
depends on the filter. -/
theorem C6_min_requests_changes_stored_data :
    runStore exC6ri exC6fetch exC6cls "total" 2 10 true = Except.error "L" ∧
    runStore exC6ri exC6fetch exC6cls "total" 0 10 true =
      Except.ok ([("alice", ⟨1, [⟨"Q1", "g", "q1", "L"⟩], 0, 0⟩)],
        [("L", ⟨"L", [], 0, 0, none⟩)]) :=
  ⟨rfl, rfl⟩

/-- Observable steps of a `main` run, in order. -/
inductive Ev where
  | fetchSummary
  | fetchLink (link : String)
  | classifyBatch
  | rejectConfig
deriving DecidableEq, Repr

/-- The order of work in `main` (`analyze.py` lines 275-323): on a cache hit
the data is loaded and neither collection, pool construction nor
classification happens; on a cache miss the regrade summary page is fetched
and parsed first, then `get_all_review_data` constructs the pool (raising
`ValueError` on `num_processes <= 0`), then the per-link fetches run, then
the classification batch. -/
def mainTrace (cacheHit : Bool) (num_processes : Int) (ri : RegradeInfoDict)
    (metric : String) (min_requests : Nat) (classify : Bool) : List Ev :=
  if cacheHit then []
  else
    Ev.fetchSummary ::
      (if num_processes ≤ 0 then [Ev.rejectConfig]
       else (reviewLinks ri metric min_requests).map Ev.fetchLink ++
         (if classify then [Ev.classifyBatch] else []))

/-- C7 counterexample: a run configured with parallelism `0` that hits the
cache performs no configuration rejection at all, contradicting "rejected
before any network or classification work begins" for every such run. -/
theorem C7_cache_hit_skips_validation :
    mainTrace true 0 [] "total" 0 true = [] ∧
    Ev.rejectConfig ∉ mainTrace true 0 [] "total" 0 true :=
  ⟨rfl, by decide⟩

/-- C7 amended: a non-positive parallelism degree is rejected only when the
collector pool is constructed: on a cache miss this happens after the summary
page has been fetched and parsed (but before any per-link fetch or
classification); on a cache hit the invalid value is never checked; and the
collector itself fails on such a configuration. -/
theorem C7_parallelism_rejected_at_collector (np : Int) (hnp : np ≤ 0)
    (ri : RegradeInfoDict) (metric : String) (min_requests : Nat)
    (classify : Bool) :
    mainTrace false np ri metric min_requests classify =
      [Ev.fetchSummary, Ev.rejectConfig] ∧
    mainTrace true np ri metric min_requests classify = [] ∧
    ∀ (fetch : String → FetchResult) (links : List String),
      get_all_review_data np fetch links =
        Except.error "max_workers must be greater than 0" := by
  refine ⟨by simp [mainTrace, hnp], rfl, ?_⟩
  intro fetch links
  unfold get_all_review_data
  rw [if_pos hnp]

theorem C7_parallelism_rejected_at_collector_witness :
    ((0 : Int) ≤ 0) ∧
    (mainTrace false 0 [] "total" 0 true = [Ev.fetchSummary, Ev.rejectConfig] ∧
      mainTrace true 0 [] "total" 0 true = [] ∧
      ∀ (fetch : String → FetchResult) (links : List String),
        get_all_review_data 0 fetch links =
          Except.error "max_workers must be greater than 0") :=
  ⟨by decide, C7_parallelism_rejected_at_collector 0 (by decide) [] "total" 0 true⟩

/-! ## Cache round-trip (`utils/cache.py`, `save_cache` / `load_cache`)

`save_cache` serializes `{"regrade_info": ..., "link_map": ...}` with
`json.dump`; `load_cache` parses the file with `json.load` and extracts the
two keys.  The `json` module (stdlib, external) transports the value tree
faithfully for this data model (string keys, finite numbers), so the file
content is modelled as the JSON value tree itself; the decoders below express
"reproduces an identical data model" for the typed model. -/

/-- JSON values as produced/consumed by Python's `json` module for this data
model; object key order is preserved. -/
inductive Json where
  | str (s : String)
  | num (q : ℚ)
  | bool (b : Bool)
  | null
  | arr (xs : List Json)
  | obj (fields : List (String × Json))

/-- Object member access. -/
def Json.getField (j : Json) (k : String) : Except String Json :=
  match j with
  | Json.obj fields =>
      match alookup fields k with
      | some v => Except.ok v
      | none => Except.error k
  | _ => Except.error "expected object"

/-- The `user` field value. -/
def senderToJson : Sender → Json
  | Sender.student => Json.str "student"
  | Sender.staff => Json.str "staff"

/-- Serialization of a `RegradeRequest` dict; the `NotRequired` field
`accepted` is present only when set. -/
def encodeMsg (r : RegradeRequest) : Json :=
  Json.obj ([("user", senderToJson r.user), ("text", Json.str r.text),
             ("timestamp", Json.num r.timestamp)] ++
    (match r.accepted with
     | none => []
     | some b => [("accepted", Json.bool b)]))

/-- Serialization of `Optional[bool]` (`None` is JSON `null`). -/
def encodeOptBool : Option Bool → Json
  | none => Json.null
  | some b => Json.bool b

/-- Serialization of a `ReviewData` dict, fields in construction order. -/
def encodeReviewData (rd : ReviewData) : Json :=
  Json.obj [("link", Json.str rd.link),
            ("reviews", Json.arr (rd.reviews.map encodeMsg)),
            ("score", Json.num rd.score),
            ("weight", Json.num rd.weight),
            ("accepted", encodeOptBool rd.accepted)]

/-- Serialization of a `RegradeInfoMetadata` dict. -/
def encodeMeta (m : RegradeInfoMetadata) : Json :=
  Json.obj [("question", Json.str m.question), ("grader", Json.str m.grader),
            ("question_link", Json.str m.question_link),
            ("review_link", Json.str m.review_link)]

/-- Serialization of a `RegradeInfo` dict. -/
def encodeInfo (i : RegradeInfo) : Json :=
  Json.obj [("num_comments", Json.num (i.num_comments : ℚ)),
            ("regrades", Json.arr (i.regrades.map encodeMeta)),
            ("num_accepted", Json.num (i.num_accepted : ℚ)),
            ("num_responded", Json.num (i.num_responded : ℚ))]

/-- Serialization of the `regrade_info` dict. -/
def encodeRegradeInfoDict (ri : RegradeInfoDict) : Json :=
  Json.obj (ri.map fun p => (p.1, encodeInfo p.2))

/-- Serialization of the `link_map` dict. -/
def encodeLinkMap (lm : LinkMap) : Json :=
  Json.obj (lm.map fun p => (p.1, encodeReviewData p.2))

/-- Function `save_cache` (`utils/cache.py` lines 42-66): the serialized object with
exactly the two top-level keys. -/
def save_cache (regrade_info : RegradeInfoDict) (link_map : LinkMap) : Json :=
  Json.obj [("regrade_info", encodeRegradeInfoDict regrade_info),
            ("link_map", encodeLinkMap link_map)]

def decodeStr : Json → Except String String
  | Json.str s => Except.ok s
  | _ => Except.error "expected string"

def decodeNum : Json → Except String ℚ
  | Json.num q => Except.ok q
  | _ => Except.error "expected number"

def decodeNat : Json → Except String Nat
  | Json.num q =>
      if q.den = 1 ∧ 0 ≤ q.num then Except.ok q.num.toNat
      else Except.error "expected natural"
  | _ => Except.error "expected number"

def decodeSender : Json → Except String Sender
  | Json.str "student" => Except.ok Sender.student
  | Json.str "staff" => Except.ok Sender.staff
  | _ => Except.error "expected sender"

def decodeBool : Json → Except String Bool
  | Json.bool b => Except.ok b
  | _ => Except.error "expected bool"

def decodeOptBool : Json → Except String (Option Bool)
  | Json.null => Except.ok none
  | Json.bool b => Except.ok (some b)
  | _ => Except.error "expected optional bool"

/-- Error-propagating map, in source order (first failure wins). -/
def mapME {α β : Type} (f : α → Except String β) : List α → Except String (List β)
  | [] => Except.ok []
  | x :: xs =>
      match f x with
      | Except.error e => Except.error e
      | Except.ok y =>
          match mapME f xs with
          | Except.error e => Except.error e
          | Except.ok ys => Except.ok (y :: ys)

theorem mapME_roundtrip {α β : Type} {f : α → β} {g : β → Except String α}
    (h : ∀ x, g (f x) = Except.ok x) (l : List α) :
    mapME g (l.map f) = Except.ok l := by
  induction l with
  | nil => rfl
  | cons x xs ih =>
    simp only [List.map_cons, mapME, h x, ih]

/-- Reading one `RegradeRequest` back from its serialized dict. -/
def decodeMsg (j : Json) : Except String RegradeRequest :=
  match j.getField "user", j.getField "text", j.getField "timestamp" with
  | Except.ok ju, Except.ok jt, Except.ok jts =>
      (match decodeSender ju, decodeStr jt, decodeNum jts with
       | Except.ok u, Except.ok t, Except.ok ts =>
          (match j with
           | Json.obj fields =>
              (match alookup fields "accepted" with
               | none => Except.ok ⟨u, t, ts, none⟩
               | some v =>
                  (match decodeBool v with
                   | Except.ok b => Except.ok ⟨u, t, ts, some b⟩
                   | Except.error e => Except.error e))
           | _ => Except.error "expected object")
       | _, _, _ => Except.error "malformed message")
  | _, _, _ => Except.error "malformed message"

theorem decodeMsg_encodeMsg (r : RegradeRequest) :
    decodeMsg (encodeMsg r) = Except.ok r := by
  obtain ⟨u, t, ts, acc⟩ := r
  cases u <;> cases acc <;> rfl

/-- Reading one `ReviewData` back from its serialized dict. -/
def decodeReviewData (j : Json) : Except String ReviewData :=
  match j.getField "link", j.getField "reviews", j.getField "score",
      j.getField "weight", j.getField "accepted" with
  | Except.ok jl, Except.ok jr, Except.ok js, Except.ok jw, Except.ok ja =>
      (match decodeStr jl, decodeNum js, decodeNum jw, decodeOptBool ja with
       | Except.ok link, Except.ok score, Except.ok weight, Except.ok acc =>
          (match jr with
           | Json.arr xs =>
              (match mapME decodeMsg xs with
               | Except.ok reviews => Except.ok ⟨link, reviews, score, weight, acc⟩
               | Except.error e => Except.error e)
           | _ => Except.error "expected array")
       | _, _, _, _ => Except.error "malformed review data")
  | _, _, _, _, _ => Except.error "malformed review data"

theorem decodeReviewData_encode (rd : ReviewData) :
    decodeReviewData (encodeReviewData rd) = Except.ok rd := by
  obtain ⟨link, reviews, score, weight, acc⟩ := rd
  have hm : mapME decodeMsg (reviews.map encodeMsg) = Except.ok reviews :=
    mapME_roundtrip decodeMsg_encodeMsg reviews
  cases acc <;>
    simp [encodeReviewData, decodeReviewData, Json.getField, alookup,
      encodeOptBool, decodeOptBool, decodeStr, decodeNum, hm]

/-- Reading one `RegradeInfoMetadata` back from its serialized dict. -/
def decodeMeta (j : Json) : Except String RegradeInfoMetadata :=
  match j.getField "question", j.getField "grader", j.getField "question_link",
      j.getField "review_link" with
  | Except.ok jq, Except.ok jg, Except.ok jql, Except.ok jrl =>
      (match decodeStr jq, decodeStr jg, decodeStr jql, decodeStr jrl with
       | Except.ok q, Except.ok g, Except.ok ql, Except.ok rl =>
          Except.ok ⟨q, g, ql, rl⟩
       | _, _, _, _ => Except.error "malformed metadata")
  | _, _, _, _ => Except.error "malformed metadata"

theorem decodeMeta_encode (m : RegradeInfoMetadata) :
    decodeMeta (encodeMeta m) = Except.ok m := rfl

theorem decodeNat_natCast (n : Nat) : decodeNat (Json.num (n : ℚ)) = Except.ok n := by
  show (if ((n : ℚ)).den = 1 ∧ 0 ≤ ((n : ℚ)).num then Except.ok ((n : ℚ)).num.toNat
        else Except.error "expected natural") = Except.ok n
  rw [if_pos]
  · rw [Rat.num_natCast]
    simp
  · constructor
    · exact Rat.den_natCast n
    · rw [Rat.num_natCast]
      exact Int.natCast_nonneg n

/-- Reading one `RegradeInfo` back from its serialized dict. -/
def decodeInfo (j : Json) : Except String RegradeInfo :=
  match j.getField "num_comments", j.getField "regrades",
      j.getField "num_accepted", j.getField "num_responded" with
  | Except.ok jc, Except.ok jr, Except.ok ja, Except.ok jrp =>
      (match decodeNat jc, decodeNat ja, decodeNat jrp with
       | Except.ok c, Except.ok a, Except.ok rp =>
          (match jr with
           | Json.arr xs =>
              (match mapME decodeMeta xs with
               | Except.ok metas => Except.ok ⟨c, metas, a, rp⟩
               | Except.error e => Except.error e)
           | _ => Except.error "expected array")
       | _, _, _ => Except.error "malformed info")
  | _, _, _, _ => Except.error "malformed info"

theorem decodeInfo_encode (i : RegradeInfo) : decodeInfo (encodeInfo i) = Except.ok i := by
  obtain ⟨c, metas, a, rp⟩ := i
  have hm : mapME decodeMeta (metas.map encodeMeta) = Except.ok metas :=
    mapME_roundtrip decodeMeta_encode metas
  simp [encodeInfo, decodeInfo, Json.getField, alookup, decodeNat_natCast, hm]

/-- Reading a string-keyed dict of values back, preserving entry order. -/
def decodeStringMap {α : Type} (f : Json → Except String α) :
    Json → Except String (List (String × α))
  | Json.obj fields =>
      mapME
        (fun p =>
          match f p.2 with
          | Except.ok v => Except.ok (p.1, v)
          | Except.error e => Except.error e)
        fields
  | _ => Except.error "expected object"

theorem decodeStringMap_encode {α : Type} {enc : α → Json}
    {dec : Json → Except String α} (h : ∀ x, dec (enc x) = Except.ok x)
    (l : List (String × α)) :
    decodeStringMap dec (Json.obj (l.map fun p => (p.1, enc p.2))) = Except.ok l := by
  unfold decodeStringMap
  exact mapME_roundtrip (fun p => by simp [h p.2]) l

/-- Function `load_cache` (`utils/cache.py` lines 28-39): parse the cache file and
extract the `regrade_info` and `link_map` members. -/
def load_cache (j : Json) : Except String (RegradeInfoDict × LinkMap) :=
  match j.getField "regrade_info", j.getField "link_map" with
  | Except.ok jri, Except.ok jlm =>
      (match decodeStringMap decodeInfo jri, decodeStringMap decodeReviewData jlm with
       | Except.ok ri, Except.ok lm => Except.ok (ri, lm)
       | Except.error e, _ => Except.error e
       | _, Except.error e => Except.error e)
  | _, _ => Except.error "malformed cache file"

/-- C8: loading a freshly saved cache reproduces the identical data model —
the same keys in the same order, the same field values, and the same ordering
of each student's requests and each record's messages. -/
theorem C8_cache_roundtrip (regrade_info : RegradeInfoDict) (link_map : LinkMap) :
    load_cache (save_cache regrade_info link_map) =
      Except.ok (regrade_info, link_map) := by
  have h1 := decodeStringMap_encode decodeInfo_encode regrade_info
  have h2 := decodeStringMap_encode decodeReviewData_encode link_map
  simp [load_cache, save_cache, Json.getField, alookup,
    encodeRegradeInfoDict, encodeLinkMap, h1, h2]

end Regrade
